import Mathlib

/-!
Shallow embedding of the `ohlc` module of the `trading-models` repository
(`src/ohlc.rs`), together with theorems checking the specification's claims
about it.

The Rust code performs no floating-point arithmetic: `f64` values are only
compared (`<`, `>`, `==`) and tested for finiteness.  An `f64` is therefore
embedded as the inductive type `F` below: NaN, the two infinities, or a
finite value carried as a rational.  IEEE-754 comparison semantics on these
operations are captured exactly: every comparison involving NaN is false,
`-inf < x < +inf` for every finite `x`, and finite values compare as their
rationals.  (The distinction between `+0.0` and `-0.0` collapses to the
rational `0`; the two are `==` and order-equivalent in IEEE-754, and the
code never distinguishes them, so the collapse is faithful on all the
operations used.)  The `u64` timestamp is embedded as `Nat`: the code does
no arithmetic on it, only order comparisons and an equality test with zero,
on which `Nat` and `u64` agree.
-/

/-- An `f64` value as used by the code: NaN, an infinity, or a finite value. -/
inductive F where
  | nan : F
  | posInf : F
  | negInf : F
  | finite : ℚ → F
deriving DecidableEq, Repr

/-- Rust `f64::is_finite`: true exactly on finite values. -/
def F.isFinite : F → Bool
  | .finite _ => true
  | _ => false

/-- IEEE-754 `<` on embedded `f64` values: false whenever NaN is involved. -/
def F.lt : F → F → Bool
  | .nan, _ => false
  | _, .nan => false
  | .negInf, .negInf => false
  | .negInf, _ => true
  | _, .negInf => false
  | .posInf, _ => false
  | .finite _, .posInf => true
  | .finite a, .finite b => decide (a < b)

/-- IEEE-754 `==` on embedded `f64` values: false whenever NaN is involved,
true on equal finite values and on matching infinities. -/
def F.beq : F → F → Bool
  | .nan, _ => false
  | _, .nan => false
  | .posInf, .posInf => true
  | .negInf, .negInf => true
  | .posInf, _ => false
  | .negInf, _ => false
  | .finite _, .posInf => false
  | .finite _, .negInf => false
  | .finite a, .finite b => decide (a = b)

/-- IEEE-754 `<=` on embedded `f64` values: `x <= y` iff `x < y` or `x == y`. -/
def F.le (x y : F) : Bool := F.lt x y || F.beq x y

/-- The OHLC record of `src/ohlc.rs`.  The Rust field `open` is named `opn`
here because `open` is a Lean keyword; all other field names match. -/
structure OHLC where
  opn : F
  high : F
  low : F
  close : F
  vol : Option F
  ts : Nat
deriving DecidableEq, Repr

/-- All opens from a slice of OHLC. -/
def opens (ohlcs : List OHLC) : List F :=
  ohlcs.map fun ohlc => ohlc.opn

/-- All highs from a slice of OHLC. -/
def highs (ohlcs : List OHLC) : List F :=
  ohlcs.map fun ohlc => ohlc.high

/-- All lows from a slice of OHLC. -/
def lows (ohlcs : List OHLC) : List F :=
  ohlcs.map fun ohlc => ohlc.low

/-- All closes from a slice of OHLC. -/
def closes (ohlcs : List OHLC) : List F :=
  ohlcs.map fun ohlc => ohlc.close

/-- Options for filtering OHLC slices. -/
structure Opts where
  exclude_before : Option Nat
  exclude_after : Option Nat

/-- Filters a slice of OHLC, keeping those matching the supplied options
(`ohlc.ts >= before` when `exclude_before` is set, `ohlc.ts <= after` when
`exclude_after` is set; an unset option imposes no constraint). -/
def filter (ohlcs : List OHLC) (opts : Opts) : List OHLC :=
  ohlcs.filter fun ohlc =>
    (match opts.exclude_before with
      | none => true
      | some before => decide (before ≤ ohlc.ts)) &&
    (match opts.exclude_after with
      | none => true
      | some after => decide (ohlc.ts ≤ after))

/-- `OHLC::new`: a fresh candle with no volume. -/
def OHLC.new (opn high low close : F) (ts : Nat) : OHLC :=
  { opn := opn, high := high, low := low, close := close, vol := none, ts := ts }

/-- `OHLC::with_volume`: the same candle with the volume set. -/
def OHLC.with_volume (self : OHLC) (vol : F) : OHLC :=
  { self with vol := some vol }

/-- `OHLC::validate`: accumulate the message of every failing check, in
source order, and fail with the list unless it is empty. -/
def OHLC.validate (self : OHLC) : Except (List String) Unit :=
  let errors : List String := []
  let errors := if !self.opn.isFinite then errors ++ ["Open price must be finite"] else errors
  let errors := if !self.high.isFinite then errors ++ ["High price must be finite"] else errors
  let errors := if !self.low.isFinite then errors ++ ["Low price must be finite"] else errors
  let errors := if !self.close.isFinite then errors ++ ["Close price must be finite"] else errors
  let errors :=
    if F.lt self.high self.low then
      errors ++ ["High price must be greater than or equal to low price"]
    else errors
  let errors :=
    match self.vol with
    | none => errors
    | some vol =>
        if !vol.isFinite || F.lt vol (F.finite 0) then
          errors ++ ["Volume must be non-negative and finite"]
        else errors
  let errors := if self.ts = 0 then errors ++ ["Timestamp must be non-zero"] else errors
  if errors = [] then Except.ok () else Except.error errors

/-- `OHLC::build`: construct via `new`, validate, and return the candle only
when validation passed (the `?` operator propagates the error list). -/
def OHLC.build (opn high low close : F) (ts : Nat) : Except (List String) OHLC :=
  let ohlc := OHLC.new opn high low close ts
  match ohlc.validate with
  | Except.ok _ => Except.ok ohlc
  | Except.error e => Except.error e

/-- The `BULLISH` constant of the source (`i8` value `1`). -/
def BULLISH : Int := 1

/-- The `BEARISH` constant of the source (`i8` value `-1`). -/
def BEARISH : Int := -1

/-- `OHLC::direction`: `BULLISH` when close > open, `BEARISH` when
open > close, and zero otherwise. -/
def OHLC.direction (self : OHLC) : Int :=
  if F.lt self.opn self.close then BULLISH
  else if F.lt self.close self.opn then BEARISH
  else 0

/-- The specification's ordered list of validation checks: each entry pairs
the failure condition with the fixed message appended when it fails
(spec §4.2, items 1-7, in the fixed order). -/
def specChecks (self : OHLC) : List (Bool × String) :=
  [ (!self.opn.isFinite, "Open price must be finite"),
    (!self.high.isFinite, "High price must be finite"),
    (!self.low.isFinite, "Low price must be finite"),
    (!self.close.isFinite, "Close price must be finite"),
    (F.lt self.high self.low, "High price must be greater than or equal to low price"),
    ((match self.vol with
      | none => false
      | some v => !v.isFinite || F.lt v (F.finite 0)),
      "Volume must be non-negative and finite"),
    (decide (self.ts = 0), "Timestamp must be non-zero") ]

/-- The messages of exactly the failing checks, in the fixed order. -/
def specViolations (self : OHLC) : List String :=
  ((specChecks self).filter fun p => p.1).map fun p => p.2

/-- The specification's keep-condition for `filter`: the candle survives iff
`exclude_before` is absent or `ts >= exclude_before`, and `exclude_after` is
absent or `ts <= exclude_after` (both bounds inclusive). -/
def specKeep (opts : Opts) (ohlc : OHLC) : Prop :=
  (∀ b ∈ opts.exclude_before, b ≤ ohlc.ts) ∧ (∀ a ∈ opts.exclude_after, ohlc.ts ≤ a)

instance (opts : Opts) (ohlc : OHLC) : Decidable (specKeep opts ohlc) := by
  unfold specKeep
  exact instDecidableAnd

/-! ## Helper lemmas -/

theorem F.lt_nan_left (x : F) : F.lt F.nan x = false := by
  cases x <;> rfl

theorem F.lt_nan_right (x : F) : F.lt x F.nan = false := by
  cases x <;> rfl

theorem F.beq_nan_left (x : F) : F.beq F.nan x = false := by
  cases x <;> rfl

theorem F.beq_nan_right (x : F) : F.beq x F.nan = false := by
  cases x <;> rfl

theorem F.lt_asymm (x y : F) : F.lt x y = true → F.lt y x = false := by
  cases x <;> cases y <;> simp [F.lt]
  exact fun h => h.le

theorem F.beq_not_lt (x y : F) (h : F.beq x y = true) :
    F.lt x y = false ∧ F.lt y x = false := by
  cases x <;> cases y <;> simp_all [F.beq, F.lt]

/-- The accumulator of `validate` equals the spec-side filtered message list. -/
theorem validate_eq_spec (c : OHLC) :
    OHLC.validate c =
      if specViolations c = [] then Except.ok () else Except.error (specViolations c) := by
  obtain ⟨o, h, l, cl, v, t⟩ := c
  simp only [OHLC.validate, specViolations, specChecks]
  rcases v with _ | x
  · by_cases ht : t = 0 <;>
      cases hb1 : o.isFinite <;> cases hb2 : h.isFinite <;> cases hb3 : l.isFinite <;>
      cases hb4 : cl.isFinite <;> cases hb5 : F.lt h l <;>
      simp [ht, hb1, hb2, hb3, hb4, hb5, List.filter]
  · by_cases ht : t = 0 <;>
      cases hb1 : o.isFinite <;> cases hb2 : h.isFinite <;> cases hb3 : l.isFinite <;>
      cases hb4 : cl.isFinite <;> cases hb5 : F.lt h l <;>
      cases hb6 : (!x.isFinite || F.lt x (F.finite 0)) <;>
      simp [ht, hb1, hb2, hb3, hb4, hb5, hb6, List.filter]

theorem validate_error_ne_nil {c : OHLC} {e : List String}
    (h : OHLC.validate c = Except.error e) : e ≠ [] := by
  rw [validate_eq_spec] at h
  by_cases hsv : specViolations c = []
  · simp [hsv] at h
  · simp only [if_neg hsv, Except.error.injEq] at h
    exact h ▸ hsv

/-! ## Claim theorems -/

/-- C1: `validate` evaluates all seven checks (no short-circuit) and returns
success iff none fails, otherwise exactly the messages of the failing checks
in the fixed order of `specChecks`; in particular, for finite prices with
`high >= low`, a non-zero timestamp, and volume absent or finite and
non-negative, it returns success. -/
theorem validate_matches_spec_checks :
    (∀ c : OHLC, OHLC.validate c =
        if specViolations c = [] then Except.ok () else Except.error (specViolations c)) ∧
    (∀ (qo qh ql qc : ℚ) (t : Nat) (v : Option ℚ), ql ≤ qh → t ≠ 0 →
      (∀ x ∈ v, (0 : ℚ) ≤ x) →
      OHLC.validate
        { opn := F.finite qo, high := F.finite qh, low := F.finite ql,
          close := F.finite qc, vol := v.map F.finite, ts := t } = Except.ok ()) := by
  refine ⟨validate_eq_spec, ?_⟩
  intro qo qh ql qc t v hlh ht hv
  rcases v with _ | x
  · simp [OHLC.validate, F.isFinite, F.lt, not_lt.mpr hlh, ht]
  · have hx : (0 : ℚ) ≤ x := hv x rfl
    simp [OHLC.validate, F.isFinite, F.lt, not_lt.mpr hlh, not_lt.mpr hx, ht]

/-- C1 witness: a concrete valid candle passes `validate`. -/
theorem validate_matches_spec_checks_witness :
    OHLC.validate
      { opn := F.finite 100, high := F.finite 110, low := F.finite 95,
        close := F.finite 105, vol := Option.map F.finite (some 1000), ts := 1625097600 } =
      Except.ok () :=
  validate_matches_spec_checks.2 100 110 95 105 1625097600 (some 1000)
    (by norm_num) (by norm_num)
    (by
      intro x hx
      rw [Option.mem_def, Option.some.injEq] at hx
      subst hx
      norm_num)

/-- C2: `build` is `new` followed by `validate`: it returns the constructed
candle exactly when validation passes, otherwise the full non-empty ordered
violation list; concretely, `build(100, 90, 95, 105, 1625097600000)` fails
with exactly the high/low message. -/
theorem build_is_new_then_validate :
    (∀ (o h l c : F) (t : Nat) (cd : OHLC),
      OHLC.build o h l c t = Except.ok cd ↔
        (OHLC.validate (OHLC.new o h l c t) = Except.ok () ∧ cd = OHLC.new o h l c t)) ∧
    (∀ (o h l c : F) (t : Nat) (e : List String),
      OHLC.build o h l c t = Except.error e ↔
        (OHLC.validate (OHLC.new o h l c t) = Except.error e ∧ e ≠ [])) ∧
    OHLC.build (F.finite 100) (F.finite 90) (F.finite 95) (F.finite 105) 1625097600000 =
      Except.error ["High price must be greater than or equal to low price"] := by
  refine ⟨?_, ?_, ?_⟩
  · intro o h l c t cd
    cases hv : OHLC.validate (OHLC.new o h l c t) with
    | ok u => cases u; simp [OHLC.build, hv, eq_comm]
    | error e => simp [OHLC.build, hv]
  · intro o h l c t e
    cases hv : OHLC.validate (OHLC.new o h l c t) with
    | ok u => cases u; simp [OHLC.build, hv]
    | error e2 =>
        constructor
        · intro he
          have heq : e2 = e := by
            simpa [OHLC.build, hv] using he
          subst heq
          exact ⟨rfl, validate_error_ne_nil hv⟩
        · intro he
          have heq : e2 = e := (Except.error.injEq _ _).mp he.1
          subst heq
          simp [OHLC.build, hv]
  · rfl

/-- C3: `direction` is `1` when close > open, `-1` when open > close, `0`
when close == open under floating-point equality, and depends only on the
open and close fields. -/
theorem direction_tri_state (c : OHLC) :
    (F.lt c.opn c.close = true → c.direction = 1) ∧
    (F.lt c.close c.opn = true → c.direction = -1) ∧
    (F.beq c.close c.opn = true → c.direction = 0) ∧
    (∀ (h l : F) (v : Option F) (t : Nat),
      OHLC.direction { c with high := h, low := l, vol := v, ts := t } = c.direction) := by
  refine ⟨?_, ?_, ?_, ?_⟩
  · intro hb
    simp [OHLC.direction, hb, BULLISH]
  · intro hb
    simp [OHLC.direction, hb, BEARISH, F.lt_asymm c.close c.opn hb]
  · intro hb
    obtain ⟨h1, h2⟩ := F.beq_not_lt c.close c.opn hb
    simp [OHLC.direction, h1, h2]
  · intro h l v t
    obtain ⟨o, hi, lo, cl, vl, ts⟩ := c
    rfl

/-- C3 witness: a concrete bullish candle has direction `1`. -/
theorem direction_tri_state_witness :
    OHLC.direction
      { opn := F.finite 100, high := F.finite 110, low := F.finite 95,
        close := F.finite 105, vol := none, ts := 1625097600 } = 1 :=
  (direction_tri_state
    { opn := F.finite 100, high := F.finite 110, low := F.finite 95,
      close := F.finite 105, vol := none, ts := 1625097600 }).1 (by decide)

/-- C4: `filter` keeps exactly the candles satisfying the spec's inclusive
keep-condition, in input order, as a sublist of the input. -/
theorem filter_keeps_spec_condition (ohlcs : List OHLC) (opts : Opts) :
    filter ohlcs opts = ohlcs.filter (fun ohlc => decide (specKeep opts ohlc)) ∧
    List.Sublist (filter ohlcs opts) ohlcs := by
  constructor
  · unfold filter
    refine List.filter_congr ?_
    intro ohlc _
    rcases opts with ⟨eb, ea⟩
    rcases eb with _ | b <;> rcases ea with _ | a <;>
      simp [specKeep, Bool.decide_and]
  · exact List.filter_sublist ohlcs

/-- C5: on four candles with timestamps 1000, 2000, 3000, 4000, the bounds
1500/3500 keep exactly the middle two in order, an `exclude_after` of zero
empties the output for any `exclude_before`, and absent bounds keep
everything unchanged. -/
theorem filter_concrete_timestamps (c1 c2 c3 c4 : OHLC)
    (h1 : c1.ts = 1000) (h2 : c2.ts = 2000) (h3 : c3.ts = 3000) (h4 : c4.ts = 4000) :
    filter [c1, c2, c3, c4] { exclude_before := some 1500, exclude_after := some 3500 } =
      [c2, c3] ∧
    (∀ eb : Option Nat,
      filter [c1, c2, c3, c4] { exclude_before := eb, exclude_after := some 0 } = []) ∧
    filter [c1, c2, c3, c4] { exclude_before := none, exclude_after := none } =
      [c1, c2, c3, c4] := by
  refine ⟨?_, ?_, ?_⟩
  · simp [filter, h1, h2, h3, h4]
  · intro eb
    rcases eb with _ | b <;> simp [filter, h1, h2, h3, h4]
  · simp [filter]

/-- A concrete candle with the given timestamp, mirroring the tests'
helper of the same name. -/
def fake_ohlc (ts : Nat) : OHLC :=
  { opn := F.finite 100, high := F.finite 110, low := F.finite 90,
    close := F.finite 105, vol := some (F.finite 1000), ts := ts }

/-- C5 witness: the three parts at four concrete candles. -/
theorem filter_concrete_timestamps_witness :
    filter [fake_ohlc 1000, fake_ohlc 2000, fake_ohlc 3000, fake_ohlc 4000]
        { exclude_before := some 1500, exclude_after := some 3500 } =
      [fake_ohlc 2000, fake_ohlc 3000] ∧
    (∀ eb : Option Nat,
      filter [fake_ohlc 1000, fake_ohlc 2000, fake_ohlc 3000, fake_ohlc 4000]
        { exclude_before := eb, exclude_after := some 0 } = []) ∧
    filter [fake_ohlc 1000, fake_ohlc 2000, fake_ohlc 3000, fake_ohlc 4000]
        { exclude_before := none, exclude_after := none } =
      [fake_ohlc 1000, fake_ohlc 2000, fake_ohlc 3000, fake_ohlc 4000] :=
  filter_concrete_timestamps (fake_ohlc 1000) (fake_ohlc 2000) (fake_ohlc 3000)
    (fake_ohlc 4000) rfl rfl rfl rfl

/-- C6: `new` always succeeds with exactly the given field values and no
volume. -/
theorem new_fields_roundtrip (o h l c : F) (t : Nat) :
    (OHLC.new o h l c t).opn = o ∧ (OHLC.new o h l c t).high = h ∧
    (OHLC.new o h l c t).low = l ∧ (OHLC.new o h l c t).close = c ∧
    (OHLC.new o h l c t).ts = t ∧ (OHLC.new o h l c t).vol = none :=
  ⟨rfl, rfl, rfl, rfl, rfl, rfl⟩

/-- C7: `with_volume` preserves every other field and sets the volume; it is
a pure function of its input. -/
theorem with_volume_pure (x : OHLC) (v : F) :
    (x.with_volume v).opn = x.opn ∧ (x.with_volume v).high = x.high ∧
    (x.with_volume v).low = x.low ∧ (x.with_volume v).close = x.close ∧
    (x.with_volume v).ts = x.ts ∧ (x.with_volume v).vol = some v :=
  ⟨rfl, rfl, rfl, rfl, rfl, rfl⟩

/-- C8: the four projections preserve length, project the respective field
at every index, and send the empty input to the empty output. -/
theorem projections_pointwise (l : List OHLC) :
    (opens l).length = l.length ∧ (highs l).length = l.length ∧
    (lows l).length = l.length ∧ (closes l).length = l.length ∧
    (∀ i : Nat, (opens l)[i]? = l[i]?.map fun c => c.opn) ∧
    (∀ i : Nat, (highs l)[i]? = l[i]?.map fun c => c.high) ∧
    (∀ i : Nat, (lows l)[i]? = l[i]?.map fun c => c.low) ∧
    (∀ i : Nat, (closes l)[i]? = l[i]?.map fun c => c.close) ∧
    (opens [] = [] ∧ highs [] = [] ∧ lows [] = [] ∧ closes [] = []) := by
  refine ⟨?_, ?_, ?_, ?_, ?_, ?_, ?_, ?_, rfl, rfl, rfl, rfl⟩ <;>
    simp [opens, highs, lows, closes, List.getElem?_map]

/-- C9: `direction` returns `0` on any candle whose open or close is NaN:
floating-point equality fails on NaN, but `0` is the fallback whenever
neither strict comparison holds. -/
theorem direction_nan_neutral (c : OHLC) :
    ((c.opn = F.nan ∨ c.close = F.nan) → c.direction = 0) ∧
    ((c.opn = F.nan ∨ c.close = F.nan) → F.beq c.close c.opn = false) ∧
    (F.lt c.opn c.close = false → F.lt c.close c.opn = false → c.direction = 0) := by
  refine ⟨?_, ?_, ?_⟩
  · rintro (hn | hn) <;>
      simp [OHLC.direction, hn, F.lt_nan_left, F.lt_nan_right]
  · rintro (hn | hn) <;>
      simp [hn, F.beq_nan_left, F.beq_nan_right]
  · intro h1 h2
    simp [OHLC.direction, h1, h2]

/-- C10: with `exclude_after = 0` and no `exclude_before`, `filter` keeps
exactly the candles whose timestamp is zero (timestamps are unsigned, so
`ts <= 0` iff `ts = 0`); the output is empty iff no input timestamp is
zero. -/
theorem filter_after_zero_keeps_ts_zero (ohlcs : List OHLC) :
    filter ohlcs { exclude_before := none, exclude_after := some 0 } =
      ohlcs.filter (fun ohlc => decide (ohlc.ts = 0)) ∧
    (filter ohlcs { exclude_before := none, exclude_after := some 0 } = [] ↔
      ∀ c ∈ ohlcs, c.ts ≠ 0) := by
  have hmain : filter ohlcs { exclude_before := none, exclude_after := some 0 } =
      ohlcs.filter (fun ohlc => decide (ohlc.ts = 0)) := by
    unfold filter
    refine List.filter_congr ?_
    intro ohlc _
    simp [Nat.le_zero]
  refine ⟨hmain, ?_⟩
  rw [hmain]
  simp [List.filter_eq_nil_iff]
